import Mathlib

/-!
# Verification of the Codexa ranking engine

Shallow embedding of the three scorers of the repository
(`src/utils/algorithms/bm25.ts`, `src/utils/algorithms/recommendations.ts`,
`src/utils/algorithms/trending.ts`) and proofs of the specification claims.

Modelling conventions:
* JavaScript numbers are modelled as `ℚ`.  All arithmetic the claims
  depend on is exact in the source (comparisons with 0, multiplication by
  rational constants), so no floating-point rounding is modelled.
* `Math.log`, `Math.exp` and `Math.pow` are transcendental; every
  definition that uses one of them is parametrised by a function
  (`log : ℚ → ℚ`, …).  Theorems assume only the properties of the real
  functions they actually need (e.g. `1 < x → 0 < log x`); concrete
  evaluations use the sign-faithful stand-ins `jsLog`/`jsExp`/`jsPow`
  defined below, which agree with the real functions at every point where
  a concrete proof inspects them.
* JavaScript strings are modelled as `List Char` where the tokenizer
  manipulates them and as `String` where they are opaque keys/names.
* `Date` values are modelled by their epoch-millisecond value (`ℚ`), and
  `new Date()` by an explicit `now : ℚ` parameter threaded through the
  definitions that read the clock.
* A JavaScript `Map`/`Set` is modelled by an association list with
  last-write-wins lookup / an insertion-ordered duplicate-free list.
-/

namespace Codexa

/-- Models the JS `\s` character class (the code-unit values matched by
`/\s/`): tab, LF, VT, FF, CR, space, NBSP, and the Unicode space
characters. -/
def isWS (c : Char) : Bool :=
  decide (c.toNat ∈ ([9, 10, 11, 12, 13, 32, 160, 5760, 8232, 8233, 8239, 8287, 12288, 65279] : List ℕ)
    ∨ (8192 ≤ c.toNat ∧ c.toNat ≤ 8202))

/-- Models the JS `\w` character class `[A-Za-z0-9_]`. -/
def isWordChar (c : Char) : Bool :=
  decide ((65 ≤ c.toNat ∧ c.toNat ≤ 90) ∨ (97 ≤ c.toNat ∧ c.toNat ≤ 122)
    ∨ (48 ≤ c.toNat ∧ c.toNat ≤ 57) ∨ c.toNat = 95)

/-- Models `String.prototype.toLowerCase` on the characters the engine
can observe: ASCII `A`–`Z` map to `a`–`z`; any other character that
`toLowerCase` might change is not in `\w`, so its image is replaced by a
space in the very next step of `tokenize` either way. -/
def jsToLower (c : Char) : Char :=
  if 65 ≤ c.toNat ∧ c.toNat ≤ 90 then Char.ofNat (c.toNat + 32) else c

/-- One step of `String.prototype.split(/\s+/)`: `st = some cur` means a
token `cur` (reversed) is being accumulated, `st = none` means the walk
is inside a whitespace run.  Matches the JS behaviour of producing an
empty leading/trailing piece when the string starts/ends with
whitespace. -/
def jsSplitGo : List Char → Option (List Char) → List (List Char)
  | [], some cur => [cur.reverse]
  | [], none => [[]]
  | c :: rest, some cur =>
      if isWS c then cur.reverse :: jsSplitGo rest none
      else jsSplitGo rest (some (c :: cur))
  | c :: rest, none =>
      if isWS c then jsSplitGo rest none
      else jsSplitGo rest (some [c])

/-- `text.split(/\s+/)`. -/
def jsSplitWS (l : List Char) : List (List Char) :=
  jsSplitGo l (some [])

/-- `String.prototype.trim()`: drop whitespace from both ends. -/
def jsTrim (l : List Char) : List Char :=
  ((l.dropWhile isWS).reverse.dropWhile isWS).reverse

/-- The `.replace(/[^\w\s]/g, " ")` step of `tokenize`, per character. -/
def replaceNonWord (c : Char) : Char :=
  if !isWordChar c && !isWS c then ' ' else c

/-- `tokenize` from `bm25.ts`: lowercase, replace every character that is
neither `\w` nor `\s` by a space, split on whitespace runs, keep tokens
of length `> 2`. -/
def tokenize (text : List Char) : List (List Char) :=
  (jsSplitWS ((text.map jsToLower).map replaceNonWord)).filter
    (fun word => 2 < word.length)

/-- The `STOP_WORDS` set from `bm25.ts`. -/
def stopWords : List (List Char) :=
  (["the", "a", "an", "and", "or", "but", "in", "on", "at", "to", "for",
    "of", "with", "by", "from", "as", "is", "was", "are", "were", "been",
    "be", "have", "has", "had", "do", "does", "did", "will", "would",
    "should", "could", "may", "might", "must", "can", "this", "that",
    "these", "those", "i", "you", "he", "she", "it", "we", "they", "what",
    "which", "who", "when", "where", "why", "how"] : List String).map
    String.toList

example : tokenize ("Hello, World!".toList) = [['h','e','l','l','o'], ['w','o','r','l','d']] := by decide
example : tokenize ("  a b  ".toList) = [] := by decide
example : tokenize ("___".toList) = [['_','_','_']] := by decide
example : tokenize ("the".toList) = [['t','h','e']] := by decide
example : jsTrim ("  ".toList) = [] := by decide
example : jsSplitWS (" a ".toList) = [[], ['a'], []] := by decide

/-- `String.prototype.includes` (contiguous substring test). -/
def jsIncludes (needle : List Char) : List Char → Bool
  | [] => decide (needle = [])
  | c :: rest => needle.isPrefixOf (c :: rest) || jsIncludes needle rest

/-! ## BM25 (`bm25.ts`) -/

/-- The `BM25Config` interface; `none` models an omitted field. -/
structure BM25Config where
  k1 : Option ℚ := none
  b : Option ℚ := none
deriving DecidableEq

/-- The `Document` interface of `bm25.ts`. -/
structure Document where
  id : String
  text : List Char
  title : Option (List Char) := none
  subtitle : Option (List Char) := none
  tags : Option (List (List Char)) := none
deriving DecidableEq

/-- The `ScoredDocument` interface (`Document` plus `score`). -/
structure ScoredDocument extends Document where
  score : ℚ
deriving DecidableEq

/-- `calculateTF`: count of exact-match tokens. -/
def calculateTF (term : List Char) (tokens : List (List Char)) : ℕ :=
  (tokens.filter (fun token => token = term)).length

/-- `buildInvertedIndex`, modelled by its only observable use
(`allTokens.get(term)?.size ?? 0` in `calculateIDF`): the number of
distinct document ids whose unique token set contains `term`, and `0`
for stop words (which are never inserted) or terms in no document
(absent keys). -/
def buildInvertedIndex (documents : List Document) : List Char → ℕ :=
  fun term =>
    if term ∈ stopWords then 0
    else (((documents.filter (fun doc => term ∈ tokenize doc.text)).map
      Document.id).dedup).length

/-- `calculateIDF`; `allTokens` is the inverted index as a size
function. -/
def calculateIDF (log : ℚ → ℚ) (term : List Char) (documents : List Document)
    (allTokens : List Char → ℕ) : ℚ :=
  let N : ℚ := documents.length
  let n : ℕ := allTokens term
  if n = 0 then 0
  else log ((N - (n : ℚ) + 1/2) / ((n : ℚ) + 1/2))

/-- `calculateAvgDocLength`: mean token count, `0` for an empty
collection (the explicit `documents.length > 0 ? … : 0` guard). -/
def calculateAvgDocLength (documents : List Document) : ℚ :=
  let totalLength : ℚ :=
    documents.foldl (fun sum doc => sum + ((tokenize doc.text).length : ℚ)) 0
  if 0 < documents.length then totalLength / (documents.length : ℚ) else 0

/-- `calculateBM25Score`. -/
def calculateBM25Score (log : ℚ → ℚ) (query : List Char) (document : Document)
    (allDocuments : List Document) (invertedIndex : List Char → ℕ)
    (avgDocLength : ℚ) (config : BM25Config := {}) : ℚ :=
  let k1 := config.k1.getD (3/2)
  let b := config.b.getD (3/4)
  let queryTokens := tokenize query
  let docTokens := tokenize document.text
  let docLength : ℚ := docTokens.length
  queryTokens.foldl (fun score term =>
    if term ∈ stopWords then score
    else
      let idf := calculateIDF log term allDocuments invertedIndex
      if idf ≤ 0 then score
      else
        let tf : ℚ := calculateTF term docTokens
        let termLower := term.map jsToLower
        let titleHit := match document.title with
          | some t => jsIncludes termLower (t.map jsToLower)
          | none => false
        let subtitleHit := match document.subtitle with
          | some s => jsIncludes termLower (s.map jsToLower)
          | none => false
        let tagHit := match document.tags with
          | some tags => tags.any (fun tag => jsIncludes termLower (tag.map jsToLower))
          | none => false
        let boost : ℚ := if titleHit then 2 else if subtitleHit then 3/2
          else if tagHit then 13/10 else 1
        let numerator := tf * (k1 + 1)
        let denominator := tf + k1 * (1 - b + b * (docLength / avgDocLength))
        let termScore := idf * numerator / denominator
        score + termScore * boost) 0

/-- `rankDocumentsWithBM25`.  `Array.prototype.sort` with comparator
`(a, b) => b.score - a.score` is a stable descending sort by score,
modelled by `List.insertionSort` with `b.score ≤ a.score` (which places
an element before all already-sorted elements it compares `≤` to,
matching stable-sort semantics). -/
def rankDocumentsWithBM25 (log : ℚ → ℚ) (query : List Char)
    (documents : List Document) (config : BM25Config := {}) : List ScoredDocument :=
  if jsTrim query = [] ∨ documents = [] then
    documents.map (fun doc => { toDocument := doc, score := 0 })
  else
    let invertedIndex := buildInvertedIndex documents
    let avgDocLength := calculateAvgDocLength documents
    let scoredDocs : List ScoredDocument := documents.map (fun doc =>
      { toDocument := doc
        score := calculateBM25Score log query doc documents invertedIndex avgDocLength config })
    List.insertionSort (fun a b => b.score ≤ a.score)
      (scoredDocs.filter (fun doc => 0 < doc.score))

/-! ## Trending (`trending.ts`) -/

/-- The `Article` interface of `trending.ts`; `createdAt` is the epoch
millisecond value of the `Date`. -/
structure TrendArticle where
  id : String
  likesCount : ℚ
  commentsCount : ℚ
  readCount : ℚ
  createdAt : ℚ
  userId : Option String := none
  authorVerified : Option Bool := none
  qualityScore : Option ℚ := none
deriving DecidableEq

/-- The `TrendingArticle` interface. -/
structure TrendingArticle extends TrendArticle where
  hotScore : ℚ
  engagementScore : ℚ
  timeDecay : ℚ
deriving DecidableEq

/-- `calculateEngagementScore`. -/
def calculateEngagementScore (log : ℚ → ℚ) (article : TrendArticle) : ℚ :=
  log (1 + (article.likesCount * 2 + article.commentsCount * 3 + article.readCount * 1))

/-- `calculateExponentialDecay`; `now` models the `new Date()` read. -/
def calculateExponentialDecay (exp : ℚ → ℚ) (now : ℚ) (articleDate : ℚ)
    (decayConstant : ℚ := 7) : ℚ :=
  let hoursOld := (now - articleDate) / (1000 * 60 * 60)
  let daysOld := hoursOld / 24
  exp (-daysOld / decayConstant)

/-- `calculateLogarithmicDecay`; `pow` models `Math.pow`. -/
def calculateLogarithmicDecay (pow : ℚ → ℚ → ℚ) (now : ℚ) (articleDate : ℚ)
    (gravity : ℚ := 9/5) : ℚ :=
  let hoursOld := (now - articleDate) / (1000 * 60 * 60)
  1 / pow (1 + hoursOld / 12) gravity

/-- `calculateHotScore`.  `if (article.authorVerified)` is truthy only
for `some true`; `article.qualityScore && article.qualityScore > 70` is
truthy only for a present, non-zero value exceeding 70. -/
def calculateHotScore (log exp : ℚ → ℚ) (pow : ℚ → ℚ → ℚ) (now : ℚ)
    (article : TrendArticle) (useLogarithmic : Bool := false) : TrendingArticle :=
  let engagementScore := calculateEngagementScore log article
  let timeDecay := if useLogarithmic then calculateLogarithmicDecay pow now article.createdAt
    else calculateExponentialDecay exp now article.createdAt
  let base := engagementScore * timeDecay
  let boosted := if article.authorVerified = some true then base * (11/10) else base
  let hotScore := match article.qualityScore with
    | some q => if q ≠ 0 ∧ 70 < q then boosted * (1 + ((q - 70) / 10) * (1/20)) else boosted
    | none => boosted
  { toTrendArticle := article
    hotScore := hotScore
    engagementScore := engagementScore
    timeDecay := timeDecay }

/-- The filter object accepted by `rankTrendingArticles`. -/
structure TrendingFilters where
  minLikes : Option ℚ := none
  minComments : Option ℚ := none
  maxAgeDays : Option ℚ := none
  useLogarithmicDecay : Option Bool := none
deriving DecidableEq

/-- The engagement check of the filter callback in
`rankTrendingArticles`: `article.likesCount < minLikes &&
article.commentsCount < minComments` (the condition that returns
`false`). -/
def engagementReject (minLikes minComments : ℚ) (article : TrendArticle) : Bool :=
  decide (article.likesCount < minLikes) && decide (article.commentsCount < minComments)

/-- The whole filter callback of `rankTrendingArticles`. -/
def trendingPass (now minLikes minComments maxAgeDays : ℚ) (article : TrendArticle) : Bool :=
  if engagementReject minLikes minComments article then false
  else if 0 < maxAgeDays ∧
      maxAgeDays < (now - article.createdAt) / (1000 * 60 * 60 * 24) then false
  else true

/-- `rankTrendingArticles`. -/
def rankTrendingArticles (log exp : ℚ → ℚ) (pow : ℚ → ℚ → ℚ) (now : ℚ)
    (articles : List TrendArticle) (filters : TrendingFilters := {})
    (limit : ℕ := 20) : List TrendingArticle :=
  let minLikes := filters.minLikes.getD 1
  let minComments := filters.minComments.getD 0
  let maxAgeDays := filters.maxAgeDays.getD 90
  let useLogarithmicDecay := filters.useLogarithmicDecay.getD false
  let filteredArticles := articles.filter (trendingPass now minLikes minComments maxAgeDays)
  let trendingArticles := filteredArticles.map (fun article =>
    calculateHotScore log exp pow now article useLogarithmicDecay)
  let ranked := List.insertionSort (fun a b => b.hotScore ≤ a.hotScore) trendingArticles
  ranked.take limit

/-- The `timeVariant` argument of `getTrendingArticlesByPeriod`. -/
inductive TimeVariant
  | ANY | WEEK | MONTH | YEAR
deriving DecidableEq

/-- `getTrendingArticlesByPeriod`. -/
def getTrendingArticlesByPeriod (log exp : ℚ → ℚ) (pow : ℚ → ℚ → ℚ) (now : ℚ)
    (articles : List TrendArticle) (timeVariant : TimeVariant := .ANY)
    (limit : ℕ := 20) : List TrendingArticle :=
  let maxAgeDays : ℚ := match timeVariant with
    | .WEEK => 7
    | .MONTH => 30
    | .YEAR => 365
    | .ANY => 90
  rankTrendingArticles log exp pow now articles
    { minLikes := some 1, minComments := some 0, maxAgeDays := some maxAgeDays,
      useLogarithmicDecay := some false } limit

/-! ## Recommendations (`recommendations.ts`) -/

/-- A tag record `{id, name, slug}`. -/
structure Tag where
  id : String
  name : String
  slug : String
deriving DecidableEq

/-- The `Article` interface of `recommendations.ts`. -/
structure RecArticle where
  id : String
  tags : List Tag
  likesCount : ℚ
  commentsCount : ℚ
  readCount : ℚ
  createdAt : ℚ
deriving DecidableEq

/-- The `RecommendedArticle` interface. -/
structure RecommendedArticle extends RecArticle where
  similarityScore : ℚ
  sharedTags : List String
deriving DecidableEq

/-- The result record of `calculateWeightedJaccard`. -/
structure JaccardResult where
  similarity : ℚ
  sharedTags : List String
deriving DecidableEq

/-- `calculateTagWeight` (the `tagName` parameter is unused, exactly as
in the source). -/
def calculateTagWeight (log : ℚ → ℚ) (tagId : String) (tagName : String)
    (article : RecArticle) (allArticles : List RecArticle) : ℚ :=
  let tf : ℚ := if article.tags.any (fun t => t.id == tagId) then 1 else 0
  let articlesWithTag :=
    (allArticles.filter (fun a => a.tags.any (fun t => t.id == tagId))).length
  let idf := log (((allArticles.length : ℚ) + 1) / ((articlesWithTag : ℚ) + 1))
  let engagementBoost :=
    1 + log (1 + (article.likesCount * (3/10) + article.commentsCount * (1/2)
      + article.readCount * (1/5)))
  tf * idf * engagementBoost

/-- `Map.prototype.get` on a `Map` built by successive `set` calls
(modelled as the association list of the `set` calls in order):
last write wins. -/
def mapGet (m : List (String × ℚ)) (k : String) : Option ℚ :=
  (m.reverse.find? (fun p => p.1 == k)).map Prod.snd

/-- `Set.prototype.add`: append iff not yet present (insertion order is
preserved, duplicates ignored). -/
def insertUnique (l : List String) (a : String) : List String :=
  if a ∈ l then l else l ++ [a]

/-- Adding every element of `ids` to the set `l`. -/
def addAll (l : List String) (ids : List String) : List String :=
  ids.foldl insertUnique l

/-- The body of the `for (const tagId of allTagIds)` loop in
`calculateWeightedJaccard`; the accumulator is
`(minSum, maxSum, sharedTags)`. -/
def jaccardStep (weightsA weightsB : List (String × ℚ)) (tagsA tagsB : List Tag)
    (acc : ℚ × ℚ × List String) (tagId : String) : ℚ × ℚ × List String :=
  let weightA := (mapGet weightsA tagId).getD 0
  let weightB := (mapGet weightsB tagId).getD 0
  let shared :=
    if 0 < weightA ∧ 0 < weightB then
      let tagName := (((tagsA.find? (fun t => t.id == tagId)).map Tag.name).orElse
        (fun _ => (tagsB.find? (fun t => t.id == tagId)).map Tag.name)).getD ("")
      if tagName ≠ "" then acc.2.2 ++ [tagName] else acc.2.2
    else acc.2.2
  (acc.1 + min weightA weightB, acc.2.1 + max weightA weightB, shared)

/-- The `(minSum, maxSum, sharedTags)` triple computed by
`calculateWeightedJaccard` before the final division. -/
def jaccardSums (log : ℚ → ℚ) (articleA articleB : RecArticle)
    (allArticles : List RecArticle) : ℚ × ℚ × List String :=
  let weightsA := articleA.tags.map (fun tag =>
    (tag.id, calculateTagWeight log tag.id tag.name articleA allArticles))
  let weightsB := articleB.tags.map (fun tag =>
    (tag.id, calculateTagWeight log tag.id tag.name articleB allArticles))
  let allTagIds := addAll (addAll [] (articleA.tags.map Tag.id)) (articleB.tags.map Tag.id)
  allTagIds.foldl (jaccardStep weightsA weightsB articleA.tags articleB.tags) (0, 0, [])

/-- `calculateWeightedJaccard`; the division by `maxSum` happens only
under the explicit `maxSum > 0` guard. -/
def calculateWeightedJaccard (log : ℚ → ℚ) (articleA articleB : RecArticle)
    (allArticles : List RecArticle) : JaccardResult :=
  let res := jaccardSums log articleA articleB allArticles
  { similarity := if 0 < res.2.1 then res.1 / res.2.1 else 0
    sharedTags := res.2.2 }

/-- `applyRecencyDecay`. -/
def applyRecencyDecay (now : ℚ) (similarity : ℚ) (articleDate : ℚ) : ℚ :=
  let daysOld := (now - articleDate) / (1000 * 60 * 60 * 24)
  let ageFactor := min 1 (daysOld / 365) * (1/5)
  similarity * (1 - ageFactor)

/-- The diversity loop of `getContentBasedRecommendations`.
`rec.sharedTags.sort()` sorts the shared-tag strings in place in
ascending lexicographic order (modelled by the stable
`List.insertionSort (· ≤ ·)` on the record that is pushed), and
`.join(",")` forms the combination key. -/
def diversityLoop (limit : ℕ) :
    List RecommendedArticle → List RecommendedArticle → List String →
    List RecommendedArticle
  | [], diverseResults, _ => diverseResults
  | rec :: rest, diverseResults, usedTagCombinations =>
    if limit ≤ diverseResults.length then diverseResults
    else
      let sortedTags := List.insertionSort (fun a b => a ≤ b) rec.sharedTags
      let tagKey := String.intercalate ("," : String) sortedTags
      if tagKey ∉ usedTagCombinations ∨ (diverseResults.length : ℚ) < (limit : ℚ) / 2 then
        diversityLoop limit rest (diverseResults ++ [{ rec with sharedTags := sortedTags }])
          (insertUnique usedTagCombinations tagKey)
      else
        diversityLoop limit rest diverseResults usedTagCombinations

/-- `getContentBasedRecommendations`. -/
def getContentBasedRecommendations (log : ℚ → ℚ) (now : ℚ)
    (currentArticle : RecArticle) (candidateArticles : List RecArticle)
    (excludeArticleIds : List String := []) (limit : ℕ := 10) :
    List RecommendedArticle :=
  let candidates := candidateArticles.filter (fun article =>
    article.id ≠ currentArticle.id ∧ article.id ∉ excludeArticleIds)
  let recommendations : List RecommendedArticle := candidates.map (fun article =>
    let jr := calculateWeightedJaccard log currentArticle article candidateArticles
    { toRecArticle := article
      similarityScore := applyRecencyDecay now jr.similarity article.createdAt
      sharedTags := jr.sharedTags })
  let validRecommendations := recommendations.filter (fun rec =>
    0 < rec.similarityScore ∧ 0 < rec.sharedTags.length)
  let sorted := List.insertionSort (fun a b => b.similarityScore ≤ a.similarityScore)
    validRecommendations
  (diversityLoop limit sorted [] []).take limit

/-! ## Sign-faithful stand-ins for `Math.log`, `Math.exp`, `Math.pow`

Used only to evaluate concrete instances.  `jsLog` agrees with the real
natural logarithm in sign everywhere on `(0, ∞)` and agrees with it
exactly at `1` (`log 1 = 0`) — every concrete evaluation below inspects
`log` only at arguments where these facts determine the observable
outcome. -/

/-- Sign-faithful model of `Math.log`. -/
def jsLog (x : ℚ) : ℚ :=
  if x < 1 then -1 else if x = 1 then 0 else 1

/-- Positivity-faithful model of `Math.exp` (its value is never
inspected by a verified property). -/
def jsExp (_ : ℚ) : ℚ := 1

/-- Positivity-faithful model of `Math.pow` (its value is never
inspected by a verified property). -/
def jsPow (_ _ : ℚ) : ℚ := 1

/-! ## Spec-side definition (for claim C5 only)

The specification says tokens consist of "lowercase alphanumeric
characters"; this is that predicate, written from the spec's words to be
compared against the behaviour of `tokenize`. -/

/-- `Modelled from the spec` (C5): a lowercase ASCII letter or digit. -/
def specLowerAlnum (c : Char) : Bool :=
  decide ((97 ≤ c.toNat ∧ c.toNat ≤ 122) ∨ (48 ≤ c.toNat ∧ c.toNat ≤ 57))

/-! ## Concrete fixtures used by witnesses and counterexamples -/

/-- A document whose text tokenizes to `["rust", "memory"]`. -/
def docRust : Document := ⟨"1", "rust memory".toList, none, none, none⟩

/-- A document whose text tokenizes to `["pasta"]`. -/
def docPasta : Document := ⟨"2", "pasta".toList, none, none, none⟩

/-- A document whose text tokenizes to `["bread"]`. -/
def docBread : Document := ⟨"3", "bread".toList, none, none, none⟩

/-- A document with a single three-letter token. -/
def docFoo : Document := ⟨"a", ['f', 'o', 'o'], none, none, none⟩

/-- A tag with id `"t"` and name `"x"`. -/
def tagT : Tag := ⟨"t", "x", "x"⟩

/-- An article with the single tag `tagT` and zero engagement. -/
def artSolo : RecArticle := ⟨"a", [tagT], 0, 0, 0, 0⟩

/-- A tagless article used to pad a corpus. -/
def artOther : RecArticle := ⟨"o", [], 0, 0, 0, 0⟩

/-- A trending article with 5 likes, created at the evaluation time. -/
def artLiked : TrendArticle := ⟨"a", 5, 0, 0, 0, none, none, none⟩

/-- The reference article for the recommendation fixture. -/
def artCur : RecArticle := ⟨"cur", [tagT], 0, 0, 0, 0⟩

/-- A candidate sharing `tagT` with `artCur`. -/
def artCandB : RecArticle := ⟨"b", [tagT], 0, 0, 0, 0⟩

/-- A candidate with an unrelated tag. -/
def artCandD : RecArticle := ⟨"d", [⟨"u", "y", "y"⟩], 0, 0, 0, 0⟩

/-- The recommendation record produced for `artCandB`. -/
def recShared : RecommendedArticle := ⟨artCandB, 1, ["x"]⟩

/-! ## Properties of the stand-in transcendental functions -/

theorem jsLog_pos {x : ℚ} (h : 1 < x) : 0 < jsLog x := by
  simp only [jsLog, if_neg (not_lt.mpr h.le), if_neg h.ne']
  norm_num

theorem jsLog_nonneg {x : ℚ} (h : 1 ≤ x) : 0 ≤ jsLog x := by
  rcases eq_or_lt_of_le h with rfl | h'
  · simp [jsLog]
  · exact (jsLog_pos h').le

/-! ## Tokenizer lemmas -/

/-- `Char.ofNat` on a plane-0 code gives back that code. -/
theorem charOfNat_toNat {n : ℕ} (h : n < 55296) : (Char.ofNat n).toNat = n := by
  have hv : Nat.isValidChar n := Or.inl h
  simp only [Char.ofNat, hv, dite_true, dif_pos]
  simp only [Char.ofNatAux, Char.toNat, UInt32.toNat, BitVec.toNat_ofNatLt]

/-- `jsToLower` never produces an ASCII uppercase letter. -/
theorem jsToLower_not_upper (c : Char) :
    ¬(65 ≤ (jsToLower c).toNat ∧ (jsToLower c).toNat ≤ 90) := by
  unfold jsToLower
  by_cases h : 65 ≤ c.toNat ∧ c.toNat ≤ 90
  · rw [if_pos h]
    rw [charOfNat_toNat (by omega)]
    omega
  · rw [if_neg h]
    exact h

/-- Whitespace characters are not ASCII uppercase letters. -/
theorem isWS_not_upper {c : Char} (h : isWS c = true) :
    ¬(65 ≤ c.toNat ∧ c.toNat ≤ 90) := by
  simp only [isWS, decide_eq_true_eq, List.mem_cons, List.not_mem_nil, or_false] at h
  omega

/-- `jsToLower` fixes whitespace characters. -/
theorem jsToLower_ws {c : Char} (h : isWS c = true) : jsToLower c = c := by
  unfold jsToLower
  exact if_neg (isWS_not_upper h)

/-- If the replacement step outputs a non-whitespace character, that
character is a word character returned unchanged. -/
theorem replaceNonWord_not_ws {c : Char} (h : isWS (replaceNonWord c) = false) :
    isWordChar c = true ∧ replaceNonWord c = c := by
  unfold replaceNonWord at h ⊢
  by_cases hb : (!isWordChar c && !isWS c) = true
  · rw [if_pos hb] at h
    exact absurd h (by decide)
  · rw [if_neg hb] at h ⊢
    refine ⟨?_, rfl⟩
    simp only [Bool.and_eq_true, Bool.not_eq_true'] at hb
    rcases Bool.eq_false_or_eq_true (isWordChar c) with hw | hw
    · exact hw
    · exact absurd ⟨hw, h⟩ hb

/-- Every character of every piece produced by `jsSplitGo` either is a
non-whitespace character of the input or was already in the pending
accumulator. -/
theorem jsSplitGo_sound :
    ∀ (l : List Char) (st : Option (List Char)) (t : List Char) (c : Char),
      t ∈ jsSplitGo l st → c ∈ t →
      (isWS c = false ∧ c ∈ l) ∨ ∃ cur, st = some cur ∧ c ∈ cur := by
  intro l
  induction l with
  | nil =>
    intro st t c ht hc
    match st with
    | some cur =>
      simp only [jsSplitGo, List.mem_singleton] at ht
      subst ht
      exact Or.inr ⟨cur, rfl, List.mem_reverse.mp hc⟩
    | none =>
      simp only [jsSplitGo, List.mem_singleton] at ht
      subst ht
      exact absurd hc (List.not_mem_nil c)
  | cons x rest ih =>
    intro st t c ht hc
    match st with
    | some cur =>
      by_cases hx : isWS x = true
      · simp only [jsSplitGo, hx, if_pos] at ht
        rcases List.mem_cons.mp ht with rfl | ht'
        · exact Or.inr ⟨cur, rfl, List.mem_reverse.mp hc⟩
        · rcases ih none t c ht' hc with ⟨hws, hmem⟩ | ⟨cur', hcur', _⟩
          · exact Or.inl ⟨hws, List.mem_cons_of_mem x hmem⟩
          · exact absurd hcur' (by simp)
      · simp only [jsSplitGo, hx, if_neg, Bool.false_eq_true, not_false_iff] at ht
        rcases ih (some (x :: cur)) t c ht hc with ⟨hws, hmem⟩ | ⟨cur', hcur', hmem⟩
        · exact Or.inl ⟨hws, List.mem_cons_of_mem x hmem⟩
        · rcases Option.some_inj.mp hcur' with rfl
          rcases List.mem_cons.mp hmem with rfl | hmem'
          · exact Or.inl ⟨Bool.not_eq_true _ ▸ hx, List.mem_cons_self c rest⟩
          · exact Or.inr ⟨cur, rfl, hmem'⟩
    | none =>
      by_cases hx : isWS x = true
      · simp only [jsSplitGo, hx, if_pos] at ht
        rcases ih none t c ht hc with ⟨hws, hmem⟩ | ⟨cur', hcur', _⟩
        · exact Or.inl ⟨hws, List.mem_cons_of_mem x hmem⟩
        · exact absurd hcur' (by simp)
      · simp only [jsSplitGo, hx, if_neg, Bool.false_eq_true, not_false_iff] at ht
        rcases ih (some [x]) t c ht hc with ⟨hws, hmem⟩ | ⟨cur', hcur', hmem⟩
        · exact Or.inl ⟨hws, List.mem_cons_of_mem x hmem⟩
        · rcases Option.some_inj.mp hcur' with rfl
          rcases List.mem_singleton.mp hmem with rfl
          exact Or.inl ⟨Bool.not_eq_true _ ▸ hx, List.mem_cons_self c rest⟩

/-- Every token of `tokenize text` has more than two characters, all of
which are non-whitespace characters of the lowered-and-replaced text. -/
theorem tokenize_sound {text t : List Char} (ht : t ∈ tokenize text) :
    2 < t.length ∧ ∀ c ∈ t,
      isWS c = false ∧ c ∈ (text.map jsToLower).map replaceNonWord := by
  unfold tokenize jsSplitWS at ht
  rcases List.mem_filter.mp ht with ⟨hsplit, hlen⟩
  refine ⟨by simpa using hlen, fun c hc => ?_⟩
  rcases jsSplitGo_sound _ _ _ _ hsplit hc with ⟨hws, hmem⟩ | ⟨cur, hcur, hmem⟩
  · exact ⟨hws, hmem⟩
  · rcases Option.some_inj.mp hcur with rfl
    exact absurd hmem (List.not_mem_nil c)

/-- Non-whitespace characters of the lowered-and-replaced text are
lowercase letters, digits, or underscores. -/
theorem replaced_char_cases {text : List Char} {c : Char}
    (hmem : c ∈ (text.map jsToLower).map replaceNonWord) (hws : isWS c = false) :
    (97 ≤ c.toNat ∧ c.toNat ≤ 122) ∨ (48 ≤ c.toNat ∧ c.toNat ≤ 57) ∨ c.toNat = 95 := by
  rcases List.mem_map.mp hmem with ⟨d, hd, rfl⟩
  rcases replaceNonWord_not_ws hws with ⟨hword, heq⟩
  rw [heq] at hws ⊢
  rcases List.mem_map.mp hd with ⟨q, _, rfl⟩
  have hupper := jsToLower_not_upper q
  simp only [isWordChar, decide_eq_true_eq] at hword
  rcases hword with h | h | h | h
  · exact absurd h hupper
  · exact Or.inl h
  · exact Or.inr (Or.inl h)
  · exact Or.inr (Or.inr h)

/-- `trim` of a string is empty iff the string is all whitespace. -/
theorem jsTrim_eq_nil_iff (l : List Char) :
    jsTrim l = [] ↔ ∀ c ∈ l, isWS c = true := by
  unfold jsTrim
  rw [List.reverse_eq_nil_iff, List.dropWhile_eq_nil_iff]
  constructor
  · intro h c hc
    have hsplit := List.takeWhile_append_dropWhile isWS l
    rcases List.mem_append.mp (hsplit.symm ▸ hc) with htake | hdrop
    · exact List.mem_takeWhile_imp htake
    · exact h c (List.mem_reverse.mpr hdrop)
  · intro h c hc
    exact h c ((List.dropWhile_sublist isWS).mem (List.mem_reverse.mp hc))

/-- A query with at least one token has a non-empty trim (tokens contain
a word character, which is not whitespace). -/
theorem jsTrim_ne_nil_of_tokens {query : List Char} (h : tokenize query ≠ []) :
    jsTrim query ≠ [] := by
  intro htrim
  have hall := (jsTrim_eq_nil_iff query).mp htrim
  rcases List.exists_mem_of_ne_nil _ h with ⟨t, ht⟩
  rcases tokenize_sound ht with ⟨hlen, hchars⟩
  rcases List.exists_mem_of_ne_nil t (by intro h0; rw [h0] at hlen; simp at hlen) with ⟨c, hc⟩
  rcases hchars c hc with ⟨hws, hmem⟩
  rcases List.mem_map.mp hmem with ⟨d, hd, rfl⟩
  rcases List.mem_map.mp hd with ⟨q, hq, rfl⟩
  have hqws : isWS q = true := hall q hq
  have : replaceNonWord (jsToLower q) = q := by
    rw [jsToLower_ws hqws]
    unfold replaceNonWord
    rw [if_neg]
    simp [hqws]
  rw [this, hqws] at hws
  exact absurd hws (by decide)

/-- A fold that skips every element of the list returns its initial
accumulator. -/
theorem foldl_skip_all {α β : Type} (f : α → β → α) :
    ∀ (l : List β) (a : α), (∀ (s : α) (x : β), x ∈ l → f s x = s) →
      l.foldl f a = a := by
  intro l
  induction l with
  | nil => intro a _; rfl
  | cons x rest ih =>
    intro a h
    rw [List.foldl_cons, h a x (List.mem_cons_self x rest)]
    exact ih a (fun s y hy => h s y (List.mem_cons_of_mem x hy))

/-- If every query token is a stop word, `calculateBM25Score` returns 0
(every loop iteration hits the `STOP_WORDS.has(term)` `continue`). -/
theorem calculateBM25Score_all_stopwords (log : ℚ → ℚ) (query : List Char)
    (document : Document) (allDocuments : List Document)
    (invertedIndex : List Char → ℕ) (avgDocLength : ℚ) (config : BM25Config)
    (hstop : ∀ t ∈ tokenize query, t ∈ stopWords) :
    calculateBM25Score log query document allDocuments invertedIndex
      avgDocLength config = 0 := by
  simp only [calculateBM25Score]
  refine foldl_skip_all _ _ _ (fun s t ht => ?_)
  exact if_pos (hstop t ht)

/-- C3 (confirmed): an empty or whitespace-only query, or an empty
document collection, makes `rankDocumentsWithBM25` return every input
document decorated with score 0, in input order, with nothing filtered
out — the dedicated pass-through branch, not the score-filter-sort
path. -/
theorem rankDocuments_degenerate_passthrough (log : ℚ → ℚ) (query : List Char)
    (documents : List Document) (config : BM25Config)
    (h : (∀ c ∈ query, isWS c = true) ∨ documents = []) :
    rankDocumentsWithBM25 log query documents config =
      documents.map (fun doc => { toDocument := doc, score := 0 }) := by
  unfold rankDocumentsWithBM25
  refine if_pos ?_
  rcases h with h | h
  · exact Or.inl ((jsTrim_eq_nil_iff query).mpr h)
  · exact Or.inr h

theorem rankDocuments_degenerate_passthrough_witness :
    (∀ c ∈ ([' '] : List Char), isWS c = true) ∧
    rankDocumentsWithBM25 jsLog [' '] [docFoo] {} =
      [{ toDocument := docFoo, score := 0 }] :=
  ⟨by decide,
    rankDocuments_degenerate_passthrough jsLog [' '] [docFoo] {} (Or.inl (by decide))⟩

/-- C4 (counterexample): the empty-token query `""` has all (zero) of
its tokens in the stop-word set and the collection is non-empty, yet
the pass-through branch of `rankDocumentsWithBM25` does trigger and the
result is not the empty list. -/
theorem stopword_query_passthrough_counterexample :
    (∀ t ∈ tokenize ([] : List Char), t ∈ stopWords) ∧
    ([docFoo] ≠ ([] : List Document)) ∧
    jsTrim ([] : List Char) = [] ∧
    rankDocumentsWithBM25 jsLog [] [docFoo] {} =
      [{ toDocument := docFoo, score := 0 }] ∧
    rankDocumentsWithBM25 jsLog [] [docFoo] {} ≠ [] := by
  refine ⟨by decide, by decide, by decide, ?_, ?_⟩ <;> with_unfolding_all decide

/-- C4 (amended, confirmed): for a non-empty document collection and a
non-empty, non-whitespace-only query all of whose tokens are stop
words, every document scores 0, the pass-through branch does not
trigger, and the filter-to-positive path returns the empty list. -/
theorem stopword_query_scores_zero (log : ℚ → ℚ) (query : List Char)
    (documents : List Document) (config : BM25Config)
    (hdocs : documents ≠ []) (htrim : jsTrim query ≠ [])
    (hstop : ∀ t ∈ tokenize query, t ∈ stopWords) :
    ¬(jsTrim query = [] ∨ documents = []) ∧
    (∀ d : Document, calculateBM25Score log query d documents
      (buildInvertedIndex documents) (calculateAvgDocLength documents) config = 0) ∧
    rankDocumentsWithBM25 log query documents config = [] := by
  have hcond : ¬(jsTrim query = [] ∨ documents = []) := by
    rintro (h | h)
    · exact htrim h
    · exact hdocs h
  refine ⟨hcond, fun d => calculateBM25Score_all_stopwords _ _ _ _ _ _ _ hstop, ?_⟩
  unfold rankDocumentsWithBM25
  rw [if_neg hcond]
  have hfilter : (documents.map (fun doc =>
      ({ toDocument := doc
         score := calculateBM25Score log query doc documents
           (buildInvertedIndex documents) (calculateAvgDocLength documents)
           config } : ScoredDocument))).filter (fun doc => 0 < doc.score) = [] := by
    rw [List.filter_eq_nil_iff]
    intro a ha
    rcases List.mem_map.mp ha with ⟨doc, _, rfl⟩
    simp [calculateBM25Score_all_stopwords log query doc documents _ _ _ hstop]
  simp only []
  rw [hfilter]
  rfl

theorem stopword_query_scores_zero_witness :
    ([docFoo] ≠ ([] : List Document)) ∧
    jsTrim ("the was".toList) ≠ [] ∧
    (∀ t ∈ tokenize ("the was".toList), t ∈ stopWords) ∧
    rankDocumentsWithBM25 jsLog ("the was".toList) [docFoo] {} = [] :=
  ⟨by decide, by decide, by decide,
    (stopword_query_scores_zero jsLog ("the was".toList) [docFoo] {}
      (by decide) (by decide) (by decide)).2.2⟩

/-- C5 (counterexample): `tokenize "___"` keeps the token `"___"`, whose
characters are not lowercase alphanumeric characters (the `\w` class
includes the underscore). -/
theorem tokenize_emits_underscore_token :
    tokenize ['_', '_', '_'] = [['_', '_', '_']] ∧ specLowerAlnum '_' = false := by
  decide

/-- C5 (amended, confirmed): every token of `tokenize` has length ≥ 3
and consists only of lowercase letters, digits, or underscores (the
lowercase of the `\w` class), not merely lowercase alphanumerics. -/
theorem tokenize_tokens_lowercase_word_chars (text : List Char) :
    ∀ t ∈ tokenize text, 3 ≤ t.length ∧
      ∀ c ∈ t, (97 ≤ c.toNat ∧ c.toNat ≤ 122) ∨ (48 ≤ c.toNat ∧ c.toNat ≤ 57) ∨
        c.toNat = 95 := by
  intro t ht
  rcases tokenize_sound ht with ⟨hlen, hchars⟩
  exact ⟨hlen, fun c hc => replaced_char_cases (hchars c hc).2 (hchars c hc).1⟩

theorem tokenize_tokens_lowercase_word_chars_witness :
    (['h', 'e', 'l', 'l', 'o'] ∈ tokenize ("Hello, World!".toList)) ∧
    (3 ≤ (['h', 'e', 'l', 'l', 'o'] : List Char).length ∧
      ∀ c ∈ (['h', 'e', 'l', 'l', 'o'] : List Char),
        (97 ≤ c.toNat ∧ c.toNat ≤ 122) ∨ (48 ≤ c.toNat ∧ c.toNat ≤ 57) ∨
          c.toNat = 95) :=
  ⟨by decide, tokenize_tokens_lowercase_word_chars ("Hello, World!".toList) _ (by decide)⟩

/-! ## Division-by-zero safety (C1) -/

/-- Folding `+ f x` equals adding the sum of the mapped list. -/
theorem foldl_add_eq_sum {α : Type} (f : α → ℚ) :
    ∀ (l : List α) (a : ℚ), l.foldl (fun s x => s + f x) a = a + (l.map f).sum := by
  intro l
  induction l with
  | nil => intro a; simp
  | cons x rest ih =>
    intro a
    rw [List.foldl_cons, ih, List.map_cons, List.sum_cons]
    ring

/-- A collection containing a document with at least one token has a
strictly positive average document length. -/
theorem avg_pos_of_mem {documents : List Document} {d : Document}
    (hd : d ∈ documents) (hne : tokenize d.text ≠ []) :
    0 < calculateAvgDocLength documents := by
  unfold calculateAvgDocLength
  have hlen : 0 < documents.length := List.length_pos.mpr (List.ne_nil_of_mem hd)
  rw [if_pos hlen]
  have htotal : documents.foldl (fun sum doc => sum + ((tokenize doc.text).length : ℚ)) 0
      = (documents.map (fun doc => ((tokenize doc.text).length : ℚ))).sum :=
    by rw [foldl_add_eq_sum]; ring
  rw [htotal]
  refine div_pos ?_ (by exact_mod_cast hlen)
  have hmem : ((tokenize d.text).length : ℚ) ∈
      documents.map (fun doc => ((tokenize doc.text).length : ℚ)) :=
    List.mem_map_of_mem _ hd
  have hone : (1 : ℚ) ≤ ((tokenize d.text).length : ℚ) := by
    exact_mod_cast Nat.one_le_iff_ne_zero.mpr
      (fun h0 => hne (List.length_eq_zero.mp h0))
  have hnn : ∀ x ∈ documents.map (fun doc => ((tokenize doc.text).length : ℚ)), 0 ≤ x := by
    intro x hx
    rcases List.mem_map.mp hx with ⟨doc, _, rfl⟩
    positivity
  have := List.single_le_sum hnn _ hmem
  linarith

/-- C1 (confirmed): the two division sites the spec names never divide
by zero. The weighted-Jaccard `minSum / maxSum` is evaluated only under
the explicit `maxSum > 0` guard (otherwise similarity is the fallback
0); `calculateAvgDocLength` has the explicit `length > 0` check
returning 0; and the `docLength / avgDocLength` division inside
`calculateBM25Score` is reachable only for a term of positive IDF,
which forces a document containing the term and hence a strictly
positive average document length. -/
theorem no_division_by_zero (log : ℚ → ℚ) :
    (∀ (articleA articleB : RecArticle) (allArticles : List RecArticle),
      0 < (jaccardSums log articleA articleB allArticles).2.1 ∨
      (calculateWeightedJaccard log articleA articleB allArticles).similarity = 0) ∧
    calculateAvgDocLength [] = 0 ∧
    (∀ (documents : List Document) (term : List Char),
      0 < calculateIDF log term documents (buildInvertedIndex documents) →
      0 < calculateAvgDocLength documents) := by
  refine ⟨?_, by simp [calculateAvgDocLength], ?_⟩
  · intro articleA articleB allArticles
    by_cases h : 0 < (jaccardSums log articleA articleB allArticles).2.1
    · exact Or.inl h
    · refine Or.inr ?_
      unfold calculateWeightedJaccard
      simp only [if_neg h]
  · intro documents term hidf
    simp only [calculateIDF] at hidf
    by_cases hn : buildInvertedIndex documents term = 0
    · rw [if_pos hn] at hidf
      exact absurd hidf (lt_irrefl 0)
    · unfold buildInvertedIndex at hn
      by_cases hsw : term ∈ stopWords
      · rw [if_pos hsw] at hn
        exact absurd rfl hn
      · rw [if_neg hsw] at hn
        have hne : documents.filter (fun doc => term ∈ tokenize doc.text) ≠ [] := by
          intro h0
          rw [h0] at hn
          simp at hn
        rcases List.exists_mem_of_ne_nil _ hne with ⟨d, hd⟩
        rcases List.mem_filter.mp hd with ⟨hdmem, hdterm⟩
        exact avg_pos_of_mem hdmem
          (List.ne_nil_of_mem (of_decide_eq_true hdterm))

theorem no_division_by_zero_witness :
    0 < calculateIDF jsLog ("rust".toList) [docRust, docPasta, docBread]
      (buildInvertedIndex [docRust, docPasta, docBread]) ∧
    0 < calculateAvgDocLength [docRust, docPasta, docBread] :=
  ⟨by with_unfolding_all decide,
    (no_division_by_zero jsLog).2.2 [docRust, docPasta, docBread] ("rust".toList)
      (by with_unfolding_all decide)⟩

/-! ## Trending filter semantics (C6, C9) -/

/-- A surviving article of the filter callback passed the engagement
check. -/
theorem trendingPass_engagement {now minLikes minComments maxAgeDays : ℚ}
    {a : TrendArticle} (h : trendingPass now minLikes minComments maxAgeDays a = true) :
    engagementReject minLikes minComments a = false := by
  unfold trendingPass at h
  by_cases he : engagementReject minLikes minComments a = true
  · rw [if_pos he] at h
    exact absurd h (by decide)
  · exact Bool.not_eq_true _ ▸ he

/-- Every article returned by `rankTrendingArticles` comes from the
input list, passed the filter callback, and carries its original
article fields through `calculateHotScore`. -/
theorem mem_rankTrendingArticles {log exp : ℚ → ℚ} {pow : ℚ → ℚ → ℚ} {now : ℚ}
    {articles : List TrendArticle} {filters : TrendingFilters} {limit : ℕ}
    {ta : TrendingArticle}
    (h : ta ∈ rankTrendingArticles log exp pow now articles filters limit) :
    ∃ a ∈ articles,
      trendingPass now (filters.minLikes.getD 1) (filters.minComments.getD 0)
        (filters.maxAgeDays.getD 90) a = true ∧
      ta = calculateHotScore log exp pow now a (filters.useLogarithmicDecay.getD false) := by
  unfold rankTrendingArticles at h
  have h1 := List.mem_of_mem_take h
  have h2 := (List.perm_insertionSort
    (fun a b : TrendingArticle => b.hotScore ≤ a.hotScore) _).mem_iff.mp h1
  rcases List.mem_map.mp h2 with ⟨a, ha, rfl⟩
  rcases List.mem_filter.mp ha with ⟨hmem, hpass⟩
  exact ⟨a, hmem, hpass, rfl⟩

/-- C6 (confirmed): the engagement filter of `rankTrendingArticles`
rejects an article iff it fails both thresholds (`likes < minLikes` AND
`comments < minComments`); equivalently it passes iff either threshold
is met, and every ranked article passed it. -/
theorem engagement_filter_or_semantics (minLikes minComments : ℚ) (a : TrendArticle) :
    (engagementReject minLikes minComments a = false ↔
      minLikes ≤ a.likesCount ∨ minComments ≤ a.commentsCount) ∧
    (engagementReject minLikes minComments a = true ↔
      a.likesCount < minLikes ∧ a.commentsCount < minComments) ∧
    (∀ (log exp : ℚ → ℚ) (pow : ℚ → ℚ → ℚ) (now : ℚ)
      (articles : List TrendArticle) (filters : TrendingFilters) (limit : ℕ)
      (ta : TrendingArticle),
      ta ∈ rankTrendingArticles log exp pow now articles filters limit →
      engagementReject (filters.minLikes.getD 1) (filters.minComments.getD 0)
        ta.toTrendArticle = false) := by
  refine ⟨?_, ?_, ?_⟩
  · simp only [engagementReject, Bool.and_eq_false_iff, decide_eq_false_iff_not, not_lt]
  · simp only [engagementReject, Bool.and_eq_true, decide_eq_true_eq]
  · intro log exp pow now articles filters limit ta hta
    rcases mem_rankTrendingArticles hta with ⟨a, _, hpass, rfl⟩
    exact trendingPass_engagement hpass

theorem engagement_filter_or_semantics_witness :
    ((⟨artLiked, 1, 1, 1⟩ : TrendingArticle) ∈
      rankTrendingArticles jsLog jsExp jsPow 0 [artLiked] {} 20) ∧
    engagementReject 1 0 artLiked = false :=
  ⟨by with_unfolding_all decide,
    (engagement_filter_or_semantics 1 0 artLiked).2.2 jsLog jsExp jsPow 0 [artLiked] {} 20
      ⟨artLiked, 1, 1, 1⟩ (by with_unfolding_all decide)⟩

/-- C9 (confirmed): with the default thresholds (`minLikes = 1`,
`minComments = 0`) a non-negative comment counter makes the engagement
rejection impossible (`comments < 0` fails), so the filter reduces to
the age check alone. -/
theorem default_engagement_filter_vacuous (now maxAgeDays : ℚ) (a : TrendArticle)
    (h : 0 ≤ a.commentsCount) :
    engagementReject 1 0 a = false ∧
    (trendingPass now 1 0 maxAgeDays a = true ↔
      (0 < maxAgeDays → (now - a.createdAt) / (1000 * 60 * 60 * 24) ≤ maxAgeDays)) := by
  have hrej : engagementReject 1 0 a = false := by
    unfold engagementReject
    rw [decide_eq_false (not_lt.mpr h)]
    exact Bool.and_false _
  refine ⟨hrej, ?_⟩
  unfold trendingPass
  rw [hrej]
  simp only [Bool.false_eq_true, if_false]
  by_cases hc : 0 < maxAgeDays ∧ maxAgeDays < (now - a.createdAt) / (1000 * 60 * 60 * 24)
  · rw [if_pos hc]
    constructor
    · intro hfalse
      exact absurd hfalse (by decide)
    · intro himp
      exact absurd (himp hc.1) (not_le.mpr hc.2)
  · rw [if_neg hc]
    push_neg at hc
    exact ⟨fun _ => hc, fun _ => rfl⟩

theorem default_engagement_filter_vacuous_witness :
    (0 ≤ artLiked.commentsCount) ∧
    engagementReject 1 0 artLiked = false ∧
    (trendingPass 0 1 0 90 artLiked = true ↔
      (0 < (90 : ℚ) → (0 - artLiked.createdAt) / (1000 * 60 * 60 * 24) ≤ 90)) :=
  ⟨by decide, default_engagement_filter_vacuous 0 90 artLiked (by decide)⟩

/-! ## Recency decay (C7) -/

/-- C7 (confirmed): for a non-negative raw similarity, the decayed score
is non-increasing as `createdAt` moves into the past; it is at least
`0.8 ×` the raw similarity whenever the article is not from the future;
and for a positive similarity the 20% cap is attained exactly for
articles at least 365 days old. -/
theorem recency_decay_monotone_capped (now s createdAt₁ createdAt₂ : ℚ)
    (hs : 0 ≤ s) :
    (createdAt₁ ≤ createdAt₂ →
      applyRecencyDecay now s createdAt₁ ≤ applyRecencyDecay now s createdAt₂) ∧
    (createdAt₁ ≤ now → 4/5 * s ≤ applyRecencyDecay now s createdAt₁) ∧
    (0 < s → (applyRecencyDecay now s createdAt₁ = 4/5 * s ↔
      365 ≤ (now - createdAt₁) / (1000 * 60 * 60 * 24))) := by
  simp only [applyRecencyDecay]
  set d₁ : ℚ := (now - createdAt₁) / (1000 * 60 * 60 * 24) with hd₁
  set d₂ : ℚ := (now - createdAt₂) / (1000 * 60 * 60 * 24) with hd₂
  refine ⟨?_, ?_, ?_⟩
  · intro h12
    have hdle : d₂ ≤ d₁ := by
      rw [hd₁, hd₂, div_le_div_iff (by norm_num) (by norm_num)]
      nlinarith
    have hmin : min 1 (d₂ / 365) ≤ min 1 (d₁ / 365) :=
      min_le_min (le_refl 1) (by linarith)
    have : 1 - min 1 (d₁ / 365) * (1/5) ≤ 1 - min 1 (d₂ / 365) * (1/5) := by linarith
    exact mul_le_mul_of_nonneg_left this hs
  · intro _
    have hmin : min 1 (d₁ / 365) ≤ 1 := min_le_left _ _
    have : (4 : ℚ)/5 ≤ 1 - min 1 (d₁ / 365) * (1/5) := by linarith
    calc 4/5 * s = s * (4/5) := by ring
    _ ≤ s * (1 - min 1 (d₁ / 365) * (1/5)) := mul_le_mul_of_nonneg_left this hs
  · intro hpos
    constructor
    · intro heq
      have h45 : s * (1 - min 1 (d₁ / 365) * (1/5)) = s * (4/5) := by linarith
      have hmin1 : min 1 (d₁ / 365) = 1 := by
        have := mul_left_cancel₀ (ne_of_gt hpos) h45
        linarith
      have : (1 : ℚ) ≤ d₁ / 365 := min_eq_left_iff.mp hmin1
      rw [le_div_iff (by norm_num)] at this
      linarith
    · intro h365
      have : (1 : ℚ) ≤ d₁ / 365 := by
        rw [le_div_iff (by norm_num)]
        linarith
      rw [min_eq_left_iff.mpr this]
      ring

theorem recency_decay_monotone_capped_witness :
    (4 : ℚ)/5 * 1 ≤ applyRecencyDecay 0 1 0 :=
  (recency_decay_monotone_capped 0 1 0 0 (by norm_num)).2.1 (le_refl 0)

/-! ## Trending period filter (C8) -/

/-- A surviving article of the filter callback with a positive maximum
age satisfies the age bound. -/
theorem trendingPass_age {now minLikes minComments maxAgeDays : ℚ}
    {a : TrendArticle}
    (h : trendingPass now minLikes minComments maxAgeDays a = true)
    (hpos : 0 < maxAgeDays) :
    (now - a.createdAt) / (1000 * 60 * 60 * 24) ≤ maxAgeDays := by
  unfold trendingPass at h
  by_cases he : engagementReject minLikes minComments a = true
  · rw [if_pos he] at h
    exact absurd h (by decide)
  · rw [if_neg he] at h
    by_cases hc : 0 < maxAgeDays ∧
        maxAgeDays < (now - a.createdAt) / (1000 * 60 * 60 * 24)
    · rw [if_pos hc] at h
      exact absurd h (by decide)
    · push_neg at hc
      exact hc hpos

/-- C8 (confirmed): `getTrendingArticlesByPeriod` with the `WEEK`
variant never returns an article older than 7 days, whatever its
engagement counters. -/
theorem week_period_excludes_old_articles (log exp : ℚ → ℚ) (pow : ℚ → ℚ → ℚ)
    (now : ℚ) (articles : List TrendArticle) (limit : ℕ) (ta : TrendingArticle)
    (h : ta ∈ getTrendingArticlesByPeriod log exp pow now articles .WEEK limit) :
    (now - ta.createdAt) / (1000 * 60 * 60 * 24) ≤ 7 := by
  unfold getTrendingArticlesByPeriod at h
  rcases mem_rankTrendingArticles h with ⟨a, _, hpass, rfl⟩
  exact trendingPass_age hpass (by norm_num)

theorem week_period_excludes_old_articles_witness :
    ((⟨artLiked, 1, 1, 1⟩ : TrendingArticle) ∈
      getTrendingArticlesByPeriod jsLog jsExp jsPow 0 [artLiked] .WEEK 20) ∧
    (0 - (⟨artLiked, 1, 1, 1⟩ : TrendingArticle).createdAt) /
      (1000 * 60 * 60 * 24) ≤ 7 :=
  ⟨by with_unfolding_all decide,
    week_period_excludes_old_articles jsLog jsExp jsPow 0 [artLiked] 20
      ⟨artLiked, 1, 1, 1⟩ (by with_unfolding_all decide)⟩

/-! ## Diversity pass sorts shared tags (C10) -/

/-- Every record returned by the diversity loop either was already
accepted or gets its `sharedTags` replaced by the sorted copy when it
is pushed. -/
theorem diversityLoop_sorted (limit : ℕ) :
    ∀ (l acc : List RecommendedArticle) (used : List String),
      (∀ x ∈ acc, List.Sorted (· ≤ ·) x.sharedTags) →
      ∀ r ∈ diversityLoop limit l acc used, List.Sorted (· ≤ ·) r.sharedTags := by
  intro l
  induction l with
  | nil =>
    intro acc used hacc r hr
    exact hacc r hr
  | cons rec rest ih =>
    intro acc used hacc r hr
    simp only [diversityLoop] at hr
    by_cases hstop : limit ≤ acc.length
    · rw [if_pos hstop] at hr
      exact hacc r hr
    · rw [if_neg hstop] at hr
      by_cases hkey : (String.intercalate ("," : String)
            (List.insertionSort (fun a b => a ≤ b) rec.sharedTags)) ∉ used ∨
          (acc.length : ℚ) < (limit : ℚ) / 2
      · rw [if_pos hkey] at hr
        refine ih _ _ ?_ r hr
        intro x hx
        rcases List.mem_append.mp hx with hx | hx
        · exact hacc x hx
        · rcases List.mem_singleton.mp hx with rfl
          show List.Sorted (· ≤ ·) (List.insertionSort (fun a b => a ≤ b) rec.sharedTags)
          exact List.sorted_insertionSort _ _
      · rw [if_neg hkey] at hr
        exact ih _ _ hacc r hr

/-- C10 (confirmed): every recommendation returned by
`getContentBasedRecommendations` has its `sharedTags` array sorted in
ascending lexicographic order, because the diversity pass sorts the
accepted record's shared-tag array in place while building its
tag-combination key. -/
theorem recommendations_sharedTags_sorted (log : ℚ → ℚ) (now : ℚ)
    (currentArticle : RecArticle) (candidateArticles : List RecArticle)
    (excludeArticleIds : List String) (limit : ℕ) (r : RecommendedArticle)
    (h : r ∈ getContentBasedRecommendations log now currentArticle
      candidateArticles excludeArticleIds limit) :
    List.Sorted (· ≤ ·) r.sharedTags := by
  unfold getContentBasedRecommendations at h
  exact diversityLoop_sorted limit _ [] []
    (fun x hx => absurd hx (List.not_mem_nil x)) r (List.mem_of_mem_take h)

theorem recommendations_sharedTags_sorted_witness :
    (recShared ∈ getContentBasedRecommendations jsLog 0 artCur
      [artCandB, artCandD] [] 10) ∧
    List.Sorted (· ≤ ·) recShared.sharedTags :=
  ⟨by with_unfolding_all decide,
    recommendations_sharedTags_sorted jsLog 0 artCur [artCandB, artCandD] [] 10
      recShared (by with_unfolding_all decide)⟩

/-! ## Weighted Jaccard of an article with itself (C2) -/

/-- `find?` returns the unique pair with a given key when keys are
duplicate-free. -/
theorem find?_key_unique :
    ∀ (l : List (String × ℚ)) (k : String) (v : ℚ),
      (k, v) ∈ l → (l.map Prod.fst).Nodup →
      l.find? (fun p => p.1 == k) = some (k, v) := by
  intro l
  induction l with
  | nil =>
    intro k v h _
    exact absurd h (List.not_mem_nil _)
  | cons p rest ih =>
    intro k v hmem hnodup
    rw [List.map_cons, List.nodup_cons] at hnodup
    rcases List.mem_cons.mp hmem with rfl | hmem'
    · exact List.find?_cons_of_pos _ (by simp)
    · have hk : k ∈ rest.map Prod.fst :=
        List.mem_map.mpr ⟨(k, v), hmem', rfl⟩
      have hne : p.1 ≠ k := fun h => hnodup.1 (h ▸ hk)
      rw [List.find?_cons_of_neg _ (by simpa using hne)]
      exact ih k v hmem' hnodup.2

/-- `Map.get` (last-write-wins) on duplicate-free keys finds the stored
value. -/
theorem mapGet_eq {l : List (String × ℚ)} {k : String} {v : ℚ}
    (hmem : (k, v) ∈ l) (hnodup : (l.map Prod.fst).Nodup) :
    mapGet l k = some v := by
  unfold mapGet
  rw [find?_key_unique l.reverse k v (List.mem_reverse.mpr hmem)
    (by rw [List.map_reverse]; exact List.nodup_reverse.mpr hnodup)]
  rfl

/-- `find?` on a tag list with duplicate-free ids returns the member
with the sought id. -/
theorem find?_tag_unique :
    ∀ (l : List Tag) (t : Tag), t ∈ l → (l.map Tag.id).Nodup →
      l.find? (fun x => x.id == t.id) = some t := by
  intro l
  induction l with
  | nil =>
    intro t h _
    exact absurd h (List.not_mem_nil _)
  | cons p rest ih =>
    intro t hmem hnodup
    rw [List.map_cons, List.nodup_cons] at hnodup
    rcases List.mem_cons.mp hmem with rfl | hmem'
    · exact List.find?_cons_of_pos _ (by simp)
    · have hk : t.id ∈ rest.map Tag.id := List.mem_map.mpr ⟨t, hmem', rfl⟩
      have hne : p.id ≠ t.id := fun h => hnodup.1 (h ▸ hk)
      rw [List.find?_cons_of_neg _ (by simpa using hne)]
      exact ih t hmem' hnodup.2

/-- Adding already-present elements to a set leaves it unchanged. -/
theorem addAll_of_subset :
    ∀ (ids l : List String), (∀ i ∈ ids, i ∈ l) → addAll l ids = l := by
  intro ids
  induction ids with
  | nil => intro l _; rfl
  | cons i rest ih =>
    intro l h
    show rest.foldl insertUnique (insertUnique l i) = l
    have hins : insertUnique l i = l := by
      unfold insertUnique
      rw [if_pos (h i (List.mem_cons_self i rest))]
    rw [hins]
    exact ih l (fun j hj => h j (List.mem_cons_of_mem i hj))

/-- Adding fresh, duplicate-free elements to a set appends them in
order. -/
theorem addAll_of_disjoint :
    ∀ (ids l : List String), ids.Nodup → (∀ i ∈ ids, i ∉ l) →
      addAll l ids = l ++ ids := by
  intro ids
  induction ids with
  | nil => intro l _ _; simp [addAll]
  | cons i rest ih =>
    intro l hnodup hdisj
    show rest.foldl insertUnique (insertUnique l i) = l ++ i :: rest
    have hins : insertUnique l i = l ++ [i] := by
      unfold insertUnique
      rw [if_neg (hdisj i (List.mem_cons_self i rest))]
    rw [hins]
    rcases List.nodup_cons.mp hnodup with ⟨hi, hrest⟩
    have h2 : List.foldl insertUnique (l ++ [i]) rest = l ++ [i] ++ rest :=
      ih (l ++ [i]) hrest (fun j hj hmem => by
        rcases List.mem_append.mp hmem with h | h
        · exact hdisj j (List.mem_cons_of_mem i hj) h
        · exact hi (List.mem_singleton.mp h ▸ hj))
    rw [h2]
    simp

/-- The shape of the Jaccard accumulation loop when both weight maps
agree, every weight is positive, and every name lookup succeeds with a
non-empty name: both sums receive the total weight and every tag name
is appended. -/
theorem jaccard_fold_shape (weightsA weightsB : List (String × ℚ))
    (tagsA tagsB : List Tag) (w : String → ℚ) :
    ∀ (l : List Tag) (acc : ℚ × ℚ × List String),
      (∀ t ∈ l, 0 < w t.id ∧ mapGet weightsA t.id = some (w t.id) ∧
        mapGet weightsB t.id = some (w t.id) ∧
        tagsA.find? (fun x => x.id == t.id) = some t ∧ t.name ≠ "") →
      List.foldl (jaccardStep weightsA weightsB tagsA tagsB) acc (l.map Tag.id) =
        (acc.1 + (l.map (fun t => w t.id)).sum,
          acc.2.1 + (l.map (fun t => w t.id)).sum,
          acc.2.2 ++ l.map Tag.name) := by
  intro l
  induction l with
  | nil =>
    intro acc _
    simp
  | cons t rest ih =>
    intro acc h
    rcases h t (List.mem_cons_self t rest) with ⟨hw, hgA, hgB, hfind, hname⟩
    rw [List.map_cons, List.foldl_cons]
    have hstep : jaccardStep weightsA weightsB tagsA tagsB acc t.id =
        (acc.1 + w t.id, acc.2.1 + w t.id, acc.2.2 ++ [t.name]) := by
      unfold jaccardStep
      rw [hgA, hgB]
      simp only [Option.getD_some]
      rw [if_pos ⟨hw, hw⟩, hfind]
      have horelse : ((tagsA.find? (fun x => x.id == t.id)).map Tag.name).orElse
          (fun _ => (tagsB.find? (fun x => x.id == t.id)).map Tag.name) = some t.name := by
        rw [hfind]
        rfl
      rw [hfind] at horelse
      rw [horelse]
      simp only [Option.getD_some]
      rw [if_pos hname]
      simp [min_self, max_self]
    rw [hstep, ih _ (fun s hs => h s (List.mem_cons_of_mem t hs))]
    simp [add_assoc]

/-- `calculateTagWeight` is strictly positive for a tag the article
holds, missing from at least one corpus article, when the engagement
counters are non-negative. -/
theorem calculateTagWeight_pos (log : ℚ → ℚ)
    (hlogpos : ∀ x : ℚ, 1 < x → 0 < log x)
    (hlognn : ∀ x : ℚ, 1 ≤ x → 0 ≤ log x)
    {t : Tag} {article : RecArticle} {corpus : List RecArticle}
    (ht : t ∈ article.tags)
    (hcnt : (corpus.filter (fun a => a.tags.any (fun x => x.id == t.id))).length
      < corpus.length)
    (hL : 0 ≤ article.likesCount) (hC : 0 ≤ article.commentsCount)
    (hR : 0 ≤ article.readCount) :
    0 < calculateTagWeight log t.id t.name article corpus := by
  have htf : article.tags.any (fun x => x.id == t.id) = true :=
    List.any_eq_true.mpr ⟨t, ht, by simp⟩
  simp only [calculateTagWeight, htf, if_true]
  have hidf : 0 < log (((corpus.length : ℚ) + 1) /
      (((corpus.filter (fun a => a.tags.any (fun x => x.id == t.id))).length : ℚ) + 1)) := by
    apply hlogpos
    rw [one_lt_div (by positivity)]
    have : ((corpus.filter (fun a => a.tags.any (fun x => x.id == t.id))).length : ℚ)
        < (corpus.length : ℚ) := by exact_mod_cast hcnt
    linarith
  have hboost : 0 < 1 + log (1 + (article.likesCount * (3/10)
      + article.commentsCount * (1/2) + article.readCount * (1/5))) := by
    have harg : (1 : ℚ) ≤ 1 + (article.likesCount * (3/10)
        + article.commentsCount * (1/2) + article.readCount * (1/5)) := by linarith
    have := hlognn _ harg
    linarith
  calc (0 : ℚ) < 1 * (log _ * (1 + log _)) := by
        rw [one_mul]
        exact mul_pos hidf hboost
  _ = _ := by ring

/-- C2 (counterexample): comparing the one-tag article `artSolo` with
itself over the corpus `[artSolo]` yields similarity 0 (every tag's IDF
is `log 1 = 0`, so `maxSum = 0`) and an empty shared-tag list, not
similarity 1 with the full tag set. -/
theorem jaccard_self_not_one_counterexample :
    (calculateWeightedJaccard jsLog artSolo artSolo [artSolo]).similarity ≠ 1 ∧
    (calculateWeightedJaccard jsLog artSolo artSolo [artSolo]).sharedTags ≠
      artSolo.tags.map Tag.name := by
  with_unfolding_all decide

/-- C2 (amended, confirmed): `calculateWeightedJaccard A A corpus`
returns similarity exactly 1 and shared tags exactly the names of A's
tag set, provided A has at least one tag, its tag ids are distinct and
names non-empty, its engagement counters are non-negative, and every
tag of A is missing from at least one corpus article (otherwise that
tag's IDF — and with it the tag's weight — is `log 1 = 0`). -/
theorem jaccard_self_similarity (log : ℚ → ℚ)
    (hlogpos : ∀ x : ℚ, 1 < x → 0 < log x)
    (hlognn : ∀ x : ℚ, 1 ≤ x → 0 ≤ log x)
    (A : RecArticle) (corpus : List RecArticle)
    (htags : A.tags ≠ [])
    (hnodup : (A.tags.map Tag.id).Nodup)
    (hnames : ∀ t ∈ A.tags, t.name ≠ "")
    (hcnt : ∀ t ∈ A.tags,
      (corpus.filter (fun a => a.tags.any (fun x => x.id == t.id))).length
        < corpus.length)
    (hL : 0 ≤ A.likesCount) (hC : 0 ≤ A.commentsCount) (hR : 0 ≤ A.readCount) :
    (calculateWeightedJaccard log A A corpus).similarity = 1 ∧
    (calculateWeightedJaccard log A A corpus).sharedTags = A.tags.map Tag.name := by
  classical
  set w : String → ℚ := fun id => calculateTagWeight log id ("") A corpus with hw
  set weightsA : List (String × ℚ) := A.tags.map (fun tag =>
    (tag.id, calculateTagWeight log tag.id tag.name A corpus)) with hweightsA
  have hkeys : weightsA.map Prod.fst = A.tags.map Tag.id := by
    rw [hweightsA, List.map_map]
    rfl
  have hget : ∀ t ∈ A.tags, mapGet weightsA t.id = some (w t.id) := by
    intro t ht
    refine mapGet_eq ?_ (hkeys ▸ hnodup)
    exact List.mem_map.mpr ⟨t, ht, rfl⟩
  have hids : addAll (addAll [] (A.tags.map Tag.id)) (A.tags.map Tag.id) =
      A.tags.map Tag.id := by
    rw [addAll_of_disjoint _ [] hnodup (fun i _ => List.not_mem_nil i),
      List.nil_append]
    exact addAll_of_subset _ _ (fun i hi => hi)
  have hsums : jaccardSums log A A corpus =
      ((A.tags.map (fun t => w t.id)).sum,
        (A.tags.map (fun t => w t.id)).sum,
        A.tags.map Tag.name) := by
    unfold jaccardSums
    rw [hids]
    have := jaccard_fold_shape weightsA weightsA A.tags A.tags w A.tags (0, 0, [])
      (fun t ht => ⟨calculateTagWeight_pos log hlogpos hlognn ht (hcnt t ht) hL hC hR,
        hget t ht, hget t ht, find?_tag_unique A.tags t ht hnodup, hnames t ht⟩)
    rw [this]
    simp
  have hSpos : 0 < (A.tags.map (fun t => w t.id)).sum := by
    refine List.sum_pos _ ?_ (by simpa using htags)
    intro x hx
    rcases List.mem_map.mp hx with ⟨t, ht, rfl⟩
    exact calculateTagWeight_pos log hlogpos hlognn ht (hcnt t ht) hL hC hR
  unfold calculateWeightedJaccard
  rw [hsums]
  refine ⟨?_, rfl⟩
  simp only [if_pos hSpos]
  exact div_self (ne_of_gt hSpos)

theorem jaccard_self_similarity_witness :
    (calculateWeightedJaccard jsLog artSolo artSolo [artSolo, artOther]).similarity = 1 ∧
    (calculateWeightedJaccard jsLog artSolo artSolo [artSolo, artOther]).sharedTags =
      artSolo.tags.map Tag.name :=
  jaccard_self_similarity jsLog (fun _ hx => jsLog_pos hx) (fun _ hx => jsLog_nonneg hx)
    artSolo [artSolo, artOther] (by decide) (by decide) (by decide) (by decide)
    (by decide) (by decide) (by decide)

end Codexa
